import Mathlib

/-!
Shallow embedding of the mathprereq query-resolution and resource-discovery
core (Go sources: `internel/application/services/query_service.go`,
`internel/data/webscraper` scraper, `internel/data/neo4j/client.go`,
`internel/domain/entities`), together with proofs of the spec claims.

Embedding conventions:
* `float64` quality scores are modelled as `ℚ`; every score the adapters
  assign and every threshold compared against is an exact decimal, so no
  floating-point rounding is observable in the verified properties.
* `time.Time` / `time.Duration` are modelled as `Int` nanoseconds; wall-clock
  sampling (`time.Now`, step durations) is not modelled, durations are 0.
* Fallible Go calls (`(T, error)`) become `Except String T`.
* External collaborators (LLM, vector index, Mongo cache lookup) are
  parameters of the functions that call them.
-/

namespace Mathprereq

/-- `types.Concept` (types.go); `CreatedAt`/`UpdatedAt` timestamps are not
read by any embedded code path and are omitted. -/
structure Concept where
  id : String
  name : String
  description : String
  type : String
deriving Repr, DecidableEq

/-- `types.VectorResult` (types.go); the `Metadata` map is never read by the
pipeline and is omitted. -/
structure VectorResult where
  content : String
  score : ℚ
deriving Repr, DecidableEq

/-- `scraper.EducationalResource` (webscraper); fields never read by the
deduplication / quality-filter / store / retrieval paths (description,
thumbnails, tags, ...) are omitted. -/
structure EducationalResource where
  conceptID : String
  conceptName : String
  title : String
  url : String
  resourceType : String
  qualityScore : ℚ
  scrapedAt : Int
deriving Repr, DecidableEq

/-- Character-level `strings.ToLower`: `String.toLower` maps `Char.toLower`
over the characters; spelled on the character list so proofs can evaluate
it. -/
def toLowerStr (s : String) : String :=
  String.mk (s.toList.map Char.toLower)

/-- `strings.ReplaceAll` with a single-character pattern and replacement is
a character-wise substitution. -/
def replaceChar (s : String) (pat repl : Char) : String :=
  String.mk (s.toList.map (fun c => if c = pat then repl else c))

/-- Lexicographic comparison of character lists by code point (the string
order an ORDER BY on strings uses). -/
def charListLE : List Char → List Char → Bool
  | [], _ => true
  | _ :: _, [] => false
  | a :: as, b :: bs =>
    if a < b then true
    else if b < a then false
    else charListLE as bs

/-- Lexicographic string comparison. -/
def strLE (a b : String) : Bool := charListLE a.toList b.toList

namespace Scraper

/-- `generateConceptID` (webscraper): lower-case, spaces and hyphens to
underscores, then strip every character outside `[a-zA-Z0-9_]`
(the regex `[^a-zA-Z0-9_]` replaced by the empty string). -/
def generateConceptID (conceptName : String) : String :=
  let id := toLowerStr conceptName
  let id := replaceChar id ' ' '_'
  let id := replaceChar id '-' '_'
  String.mk (id.toList.filter (fun c => c.isAlphanum || c = '_'))

/-- Inner worker of `deduplicateResources`: the Go loop carries the `seen`
set of URLs and appends a resource only when its URL is unseen. -/
def dedupGo (seen : List String) : List EducationalResource → List EducationalResource
  | [] => []
  | r :: rs =>
    if r.url ∈ seen then dedupGo seen rs
    else r :: dedupGo (r.url :: seen) rs

/-- `deduplicateResources` (webscraper): removes duplicate resources based on
URL, first occurrence wins. -/
def deduplicateResources (resources : List EducationalResource) : List EducationalResource :=
  dedupGo [] resources

/-- One left-to-right adjacent-compare-and-swap pass of the Go bubble sort
(`if sortedResources[j].QualityScore < sortedResources[j+1].QualityScore`
then swap).  The Go outer loop shortens the inner bound to `n-i-1`; a full
pass is extensionally identical because the skipped suffix already holds the
`i` smallest elements in descending order, on which the pass swaps nothing. -/
def bubblePass : List EducationalResource → List EducationalResource
  | a :: b :: rest =>
    if a.qualityScore < b.qualityScore then b :: bubblePass (a :: rest)
    else a :: bubblePass (b :: rest)
  | l => l
termination_by l => l.length

/-- The bubble sort by quality score (descending) used by both
`filterQualityResources` and `GetResourcesForConcepts`: `n-1` passes. -/
def sortByQualityDesc (l : List EducationalResource) : List EducationalResource :=
  bubblePass^[l.length - 1] l

/-- Association-list rendering of the Go nested map
`conceptCounts : concept_id -> resource_type -> int`: the key is the pair
(concept id, resource type). -/
abbrev CountMap := List ((String × String) × Nat)

/-- Reading `conceptCounts[c][t]` (0 when absent). -/
def countFor : CountMap → String × String → Nat
  | [], _ => 0
  | e :: es, k => if e.1 = k then e.2 else countFor es k

/-- `counts[resourceType]++`. -/
def incrCount : CountMap → String × String → CountMap
  | [], k => [(k, 1)]
  | e :: es, k => if e.1 = k then (e.1, e.2 + 1) :: es else e :: incrCount es k

/-- The Go `totalCount` loop: sum of all per-type counts recorded for one
concept id. -/
def totalFor (m : CountMap) (c : String) : Nat :=
  ((m.filter (fun e => e.1.1 = c)).map (fun e => e.2)).sum

/-- The admission loop of `filterQualityResources`: walk the (sorted)
candidates, dropping low-quality ones and ones that would exceed the
per-concept total cap (6), the video cap (3) or the combined
article/tutorial cap (3); admitted resources bump the counters. -/
def admitLoop (counts : CountMap) : List EducationalResource → List EducationalResource
  | [] => []
  | r :: rs =>
    if r.qualityScore < 0.4 then admitLoop counts rs
    else if 6 ≤ totalFor counts r.conceptID then admitLoop counts rs
    else if r.resourceType = "video" ∧
        3 ≤ countFor counts (r.conceptID, "video") then admitLoop counts rs
    else if (r.resourceType = "article" ∨ r.resourceType = "tutorial") ∧
        3 ≤ countFor counts (r.conceptID, "article") +
            countFor counts (r.conceptID, "tutorial") then admitLoop counts rs
    else r :: admitLoop (incrCount counts (r.conceptID, r.resourceType)) rs

/-- `filterQualityResources` (webscraper): sort candidates by quality
descending, then admit them against the threshold and diversity caps. -/
def filterQualityResources (resources : List EducationalResource) : List EducationalResource :=
  admitLoop [] (sortByQualityDesc resources)

/-- One `UpdateOneModel` of `storeResources`: filter `{url: r.URL}`, update
`{$set: r}`, upsert.  The durable store is modelled as the list of documents
in the `educational_resources` collection. -/
def upsertOne (store : List EducationalResource) (r : EducationalResource) :
    List EducationalResource :=
  if store.any (fun d => d.url = r.url) then
    store.map (fun d => if d.url = r.url then r else d)
  else store ++ [r]

/-- `storeResources` (webscraper): bulk upsert keyed on URL. -/
def storeResources (store : List EducationalResource)
    (resources : List EducationalResource) : List EducationalResource :=
  resources.foldl upsertOne store

/-- Per-scrape persisted batch for one concept (`scrapeResourcesForConcept`
post-processing): dedup by URL, then quality filter; this list is what
`storeResources` persists. -/
def persistedBatch (allResources : List EducationalResource) : List EducationalResource :=
  filterQualityResources (deduplicateResources allResources)

/-- `GetResourcesForConcept` (webscraper): Mongo `Find` on
`{concept_id: conceptID}` sorted by `quality_score` descending, limited.
Ties keep insertion order (one fixed choice of Mongo's unspecified
tie order). -/
def GetResourcesForConcept (store : List EducationalResource) (conceptID : String)
    (limit : Nat) : List EducationalResource :=
  (sortByQualityDesc (store.filter (fun r => r.conceptID = conceptID))).take limit

end Scraper

namespace Entities

/-- `entities.ProcessingStep`; durations are not modelled (always 0). -/
structure ProcessingStep where
  name : String
  duration : Int
  success : Bool
  error : String
deriving Repr, DecidableEq

/-- `entities.QueryResponse`. -/
structure QueryResponse where
  explanation : String
  retrievedContext : List String
  llmProvider : String
  llmModel : String
deriving Repr, DecidableEq

/-- `entities.QueryMetadata` (vector/graph hit counters are never read and
are omitted). -/
structure QueryMetadata where
  processingSteps : List ProcessingStep
  requestID : String
deriving Repr, DecidableEq

/-- `entities.Query`.  `ID` is a generated UUID in Go; the generator is not
modelled, so the id is threaded as a value (empty for fresh queries). -/
structure Query where
  id : String
  userID : String
  text : String
  identifiedConcepts : List String
  prerequisitePath : List Concept
  response : QueryResponse
  timestamp : Int
  processingTimeMs : Int
  success : Bool
  errorMessage : String
  metadata : QueryMetadata
deriving Repr, DecidableEq

/-- `entities.NewQuery` at creation instant `now`. -/
def NewQuery (userID text requestID : String) (now : Int) : Query :=
  { id := ""
    userID := userID
    text := text
    identifiedConcepts := []
    prerequisitePath := []
    response := { explanation := "", retrievedContext := [], llmProvider := "", llmModel := "" }
    timestamp := now
    processingTimeMs := 0
    success := false
    errorMessage := ""
    metadata := { processingSteps := [], requestID := requestID } }

/-- `Query.AddProcessingStep` (duration not modelled). -/
def AddProcessingStep (q : Query) (name : String) (success : Bool)
    (err : Option String) : Query :=
  let step : ProcessingStep :=
    { name := name, duration := 0, success := success, error := err.getD "" }
  { q with metadata := { q.metadata with
      processingSteps := q.metadata.processingSteps ++ [step] } }

/-- `Query.MarkCompleted` (elapsed milliseconds not modelled). -/
def MarkCompleted (q : Query) (success : Bool) (err : Option String) : Query :=
  { q with success := success, errorMessage := err.getD q.errorMessage }

end Entities

namespace Services

open Entities

/-- `services.ExplanationRequest`. -/
structure ExplanationRequest where
  query : String
  prerequisitePath : List Concept
  contextChunks : List String
deriving Repr, DecidableEq

/-- `services.QueryRequest`. -/
structure QueryRequest where
  userID : String
  question : String
  requestID : String
deriving Repr, DecidableEq

/-- `services.QueryResult` (wall-clock `ProcessingTime` not modelled). -/
structure QueryResult where
  query : Query
  identifiedConcepts : List String
  prerequisitePath : List Concept
  explanation : String
  retrievedContext : List String
  requestID : String
deriving Repr, DecidableEq

/-- The external collaborators of `queryService` as pure oracles:
the LLM client, the concept repository (graph), the vector repository, and
whether a resource scraper was injected (`s.resourceScraper != nil`). -/
structure PipelineEnv where
  identifyConcepts : String → Except String (List String)
  findPrerequisitePath : List String → Except String (List Concept)
  vectorSearch : String → Nat → Except String (List VectorResult)
  generateExplanation : ExplanationRequest → Except String String
  provider : String
  model : String
  hasScraper : Bool

/-- Outcome of one pipeline run: the mutated `Query` entity (what
`saveQueryAsync` persists), the returned result or error, and the concept
lists handed to detached background `ScrapeResourcesForConcepts` jobs. -/
structure PipelineOutcome where
  query : Query
  result : Except String QueryResult
  dispatchedScrapes : List (List String)

/-- `scrapeResourcesAsync`: the background job truncates its concept list to
at most 5 before scraping. -/
def scrapeResourcesAsyncConcepts (conceptNames : List String) : List String :=
  conceptNames.take 5

/-- `processQueryPipeline` (query_service.go).  Stage 1 (identify) and stage
2 (prerequisite path) failures abort; after stage 2 a background scrape job
is dispatched when a scraper is present and concepts were identified; stage
3 (vector search) failure is recovered with an empty context; stage 4
(explanation) failure aborts. -/
def processQueryPipeline (env : PipelineEnv) (q0 : Query) : PipelineOutcome :=
  match env.identifyConcepts q0.text with
  | .error e =>
    { query := AddProcessingStep q0 "identify_concepts" false (some e)
      result := .error ("concept identification failed: " ++ e)
      dispatchedScrapes := [] }
  | .ok conceptNames =>
    let q1 := { AddProcessingStep q0 "identify_concepts" true none with
                identifiedConcepts := conceptNames }
    match env.findPrerequisitePath conceptNames with
    | .error e =>
      { query := AddProcessingStep q1 "find_prerequisites" false (some e)
        result := .error ("prerequisite path finding failed: " ++ e)
        dispatchedScrapes := [] }
    | .ok prereqPath =>
      let q2 := { AddProcessingStep q1 "find_prerequisites" true none with
                  prerequisitePath := prereqPath }
      let dispatched :=
        if env.hasScraper ∧ conceptNames.length ≠ 0 then
          [scrapeResourcesAsyncConcepts conceptNames]
        else []
      let vectorOutcome := env.vectorSearch q0.text 5
      let q3 := AddProcessingStep q2 "vector_search" vectorOutcome.isOk
        (match vectorOutcome with | .error e => some e | .ok _ => none)
      let vectorResults := match vectorOutcome with | .error _ => [] | .ok vs => vs
      let context := vectorResults.map (fun vr => vr.content)
      match env.generateExplanation
        { query := q0.text, prerequisitePath := prereqPath, contextChunks := context } with
      | .error e =>
        { query := AddProcessingStep q3 "generate_explanation" false (some e)
          result := .error ("explanation generation failed: " ++ e)
          dispatchedScrapes := dispatched }
      | .ok explanation =>
        let q4 := { AddProcessingStep q3 "generate_explanation" true none with
                    response := { explanation := explanation, retrievedContext := context,
                                  llmProvider := env.provider, llmModel := env.model } }
        { query := q4
          result := .ok { query := q4, identifiedConcepts := conceptNames,
                          prerequisitePath := prereqPath, explanation := explanation,
                          retrievedContext := context, requestID := "" }
          dispatchedScrapes := dispatched }

/-- `ProcessQuery` (query_service.go): run the pipeline on a fresh `Query`,
mark it completed (success or failure) for the asynchronous save, and wrap a
pipeline error.  The `query` field of the outcome is the entity handed to
`saveQueryAsync`. -/
def ProcessQuery (env : PipelineEnv) (req : QueryRequest) (now : Int) : PipelineOutcome :=
  let q := NewQuery req.userID req.question "" now
  let out := processQueryPipeline env q
  match out.result with
  | .error e =>
    { out with query := MarkCompleted out.query false (some e)
               result := .error ("failed to process query: " ++ e) }
  | .ok r =>
    { out with query := MarkCompleted out.query true none
               result := .ok { r with query := MarkCompleted out.query true none } }

/-- `generateConceptID` (query_service.go).  Its comment claims the same
logic as the scraper, but it only lower-cases and replaces spaces. -/
def generateConceptID (conceptName : String) : String :=
  toLowerStr (replaceChar conceptName ' ' '_')

/-- `removeDuplicateStrings` (query_service.go): first occurrence wins,
keyed on the trimmed lower-cased string, empty keys dropped. -/
def removeDuplicateStrings (input : List String) : List String :=
  go [] input
where
  /-- The loop, carrying the `keys` set of seen normalized strings. -/
  go (keys : List String) : List String → List String
    | [] => []
    | item :: rest =>
      if (toLowerStr item).trim ∉ keys ∧ (toLowerStr item).trim ≠ "" then
        item :: go ((toLowerStr item).trim :: keys) rest
      else go keys rest

/-- The concept list a cache-hit `gatherResourcesInBackground` job hands to
`ScrapeResourcesForConcepts`: queried concept first, then the record's
identified concepts, deduplicated, truncated to 3. -/
def gatherConcepts (conceptName : String) (identifiedConcepts : List String) : List String :=
  (removeDuplicateStrings (conceptName :: identifiedConcepts)).take 3

/-- `buildConceptQueryPrompt` (query_service.go). -/
def buildConceptQueryPrompt (conceptName : String) : String :=
  "Please provide a comprehensive explanation of the mathematical concept \"" ++
  conceptName ++ "\". \n\nInclude the following in your explanation:\n" ++
  "1. Definition and core principles\n" ++
  "2. Prerequisites needed to understand this concept\n" ++
  "3. Key formulas or theorems (if applicable)\n" ++
  "4. Step-by-step examples with clear explanations\n" ++
  "5. Common applications and real-world uses\n" ++
  "6. Common mistakes students make and how to avoid them\n" ++
  "7. Connections to other mathematical concepts\n\n" ++
  "Make the explanation educational, detailed, and suitable for students learning this concept."

/-- `maxCacheAge`: 30 days in nanoseconds (`30 * 24 * time.Hour`). -/
def maxCacheAge : Int := 30 * 24 * 3600 * 1000000000

/-- `SmartConceptQuery` (query_service.go), parameterised by the record the
Mongo cache lookup produced (`FindCachedConceptQuery` result; `none` covers
both no-match and lookup failure, which Go treats identically) and the
current instant.  Returns the result-or-error plus every background scrape
job dispatched. -/
def SmartConceptQuery (env : PipelineEnv) (cached : Option Query)
    (conceptName userID requestID : String) (now : Int) :
    Except String QueryResult × List (List String) :=
  match cached with
  | some cachedQuery =>
    if now - cachedQuery.timestamp < maxCacheAge then
      let job := if env.hasScraper then
          [gatherConcepts conceptName cachedQuery.identifiedConcepts]
        else []
      (.ok { query := cachedQuery
             identifiedConcepts := cachedQuery.identifiedConcepts
             prerequisitePath := cachedQuery.prerequisitePath
             retrievedContext := cachedQuery.response.retrievedContext
             explanation := cachedQuery.response.explanation
             requestID := requestID },
       job)
    else smartFresh env conceptName userID requestID now
  | none => smartFresh env conceptName userID requestID now
where
  /-- The fresh-processing tail of `SmartConceptQuery` (steps 3+). -/
  smartFresh (env : PipelineEnv) (conceptName userID requestID : String) (now : Int) :
      Except String QueryResult × List (List String) :=
    let out := ProcessQuery env
      { userID := userID, question := buildConceptQueryPrompt conceptName,
        requestID := requestID } now
    match out.result with
    | .error e => (.error ("failed to process fresh concept query: " ++ e),
                   out.dispatchedScrapes)
    | .ok r => (.ok r, out.dispatchedScrapes)

/-- `GetResourcesForConcepts` (query_service.go): per concept, fetch stored
resources (skipping per-concept fetch errors is not modelled: the store is a
value), concatenate, bubble-sort by quality descending, truncate to
`limit`.  Go takes `limit : int` and would panic slicing with a negative
limit; `Nat` models the meaningful domain. -/
def GetResourcesForConcepts (store : List EducationalResource)
    (conceptNames : List String) (limit : Nat) : List EducationalResource :=
  let allResources := (conceptNames.map
    (fun name => Scraper.GetResourcesForConcept store (generateConceptID name) limit)).flatten
  let sorted := Scraper.sortByQualityDesc allResources
  if sorted.length > limit then sorted.take limit else sorted

end Services

/-- Specification-side rendering of first-occurrence-wins deduplication by a
key: keep each element whose key has not occurred earlier in the list. -/
def keepFirstBy {α κ : Type} [DecidableEq κ] (key : α → κ) : List α → List α
  | [] => []
  | a :: as => a :: keepFirstBy key (as.filter (fun x => key x ≠ key a))
termination_by l => l.length
decreasing_by
  exact Nat.lt_succ_of_le (List.length_filter_le _ _)

namespace Neo4j

/-- One `(:Concept)` node of the knowledge graph. -/
structure GraphNode where
  id : String
  name : String
  description : String
deriving Repr, DecidableEq

/-- The knowledge graph: nodes plus `PREREQUISITE_FOR` relationships given
as (source id, destination id). -/
structure Graph where
  concepts : List GraphNode
  edges : List (String × String)
deriving Repr

/-- There is a `PREREQUISITE_FOR` chain of length between 1 and `fuel` from
`a` to `b`. -/
def reachesIn (edges : List (String × String)) : Nat → String → String → Bool
  | 0, _, _ => false
  | n + 1, a, b =>
    edges.any (fun e => e.1 = a && (e.2 = b || reachesIn edges n e.2 b))

/-- `MATCH (a)-[:PREREQUISITE_FOR*]->(b)` matches: Cypher paths traverse
each relationship at most once, so any match has length at most the number
of relationships. -/
def reachable (g : Graph) (a b : String) : Bool :=
  reachesIn g.edges g.edges.length a b

/-- Substring containment on character lists: the pattern is a prefix of
some suffix. -/
def containsSubList (pattern : List Char) : List Char → Bool
  | [] => pattern.isEmpty
  | c :: rest => pattern.isPrefixOf (c :: rest) || containsSubList pattern rest

/-- Substring containment (Cypher `CONTAINS`). -/
def containsSub (s pattern : String) : Bool :=
  containsSubList pattern.toList s.toList

/-- `FindConceptID` (neo4j/client.go): first node whose lower-cased name
contains the lower-cased query, or whose id matches it case-insensitively
(`LIMIT 1` modelled as the first node in graph order). -/
def FindConceptID (g : Graph) (conceptName : String) : Option String :=
  (g.concepts.find? (fun c =>
    containsSub (toLowerStr c.name) (toLowerStr conceptName) ||
    toLowerStr c.id = toLowerStr conceptName)).map (fun c => c.id)

/-- The row the path query RETURNs for one node: role `target` exactly when
the id is one of the resolved target ids. -/
def rowOf (targetIDs : List String) (c : GraphNode) : Concept :=
  { id := c.id, name := c.name, description := c.description,
    type := if c.id ∈ targetIDs then "target" else "prerequisite" }

/-- The final `ORDER BY` of the path query: role key (`target` ↦ 1,
otherwise 0) first, then name. -/
def rowLE (targetIDs : List String) (x y : Concept) : Bool :=
  let kx : Nat := if x.id ∈ targetIDs then 1 else 0
  let ky : Nat := if y.id ∈ targetIDs then 1 else 0
  kx < ky || (kx = ky && strLE x.name y.name)

/-- `COLLECT(DISTINCT ...)` / `RETURN DISTINCT`: keep the first occurrence
of each value, in order. -/
def distinctGo {α : Type} [DecidableEq α] (seen : List α) : List α → List α
  | [] => []
  | a :: as =>
    if a ∈ seen then distinctGo seen as
    else a :: distinctGo (a :: seen) as

/-- First-occurrence distinct filter over values. -/
def collectDistinct {α : Type} [DecidableEq α] (l : List α) : List α :=
  distinctGo [] l

/-- The Cypher path query of `FindPrerequisitePath`: collect every
(prerequisite, target) pair joined by a `PREREQUISITE_FOR*` path with the
target among `targetIDs`, take the distinct prerequisites followed by the
distinct targets, project each to a typed row, deduplicate rows, and sort
by (role, name); the sort is modelled as a stable insertion sort (Neo4j
does not specify its tie order).  The intermediate `ORDER BY pathLength`
only fixes the collection order, which the final `ORDER BY` discards. -/
def runPrereqQuery (g : Graph) (targetIDs : List String) : List Concept :=
  let pairs := g.concepts.flatMap (fun p =>
    (g.concepts.filter (fun t => t.id ∈ targetIDs && reachable g p.id t.id)).map
      (fun t => (p, t)))
  let prerequisites := collectDistinct (pairs.map (fun e => e.1))
  let targets := collectDistinct (pairs.map (fun e => e.2))
  let rows := collectDistinct ((prerequisites ++ targets).map (rowOf targetIDs))
  List.insertionSort (fun x y => rowLE targetIDs x y = true) rows

/-- The id a lookup yields for a name, collapsing lookup errors and
no-match to `none` (Go skips both identically). -/
def resolvedID (lookup : String → Except String (Option String)) (name : String) :
    Option String :=
  match lookup name with
  | .ok (some id) => some id
  | _ => none

/-- The target-id accumulation loop of `FindPrerequisitePath`: names whose
`FindConceptID` call errors or finds nothing are skipped. -/
def resolveTargetIDs (lookup : String → Except String (Option String)) :
    List String → List String
  | [] => []
  | name :: rest =>
    match lookup name with
    | .ok (some id) => id :: resolveTargetIDs lookup rest
    | _ => resolveTargetIDs lookup rest

/-- `FindPrerequisitePath` (neo4j/client.go), with the per-name
`FindConceptID` session calls abstracted as `lookup` (in the deployed system
`lookup = fun n => .ok (FindConceptID g n)` when the graph is reachable,
and may error on connectivity failures). -/
def FindPrerequisitePath (g : Graph)
    (lookup : String → Except String (Option String))
    (targetConcepts : List String) : Except String (List Concept) :=
  if targetConcepts.length = 0 then .ok []
  else if (resolveTargetIDs lookup targetConcepts).length = 0 then .ok []
  else .ok (runPrereqQuery g (resolveTargetIDs lookup targetConcepts))

end Neo4j

/-! ## Concrete fixtures used by witnesses and counterexamples -/

namespace Fixtures

/-- Resource builder for concrete instances. -/
def res (c t u : String) (q : ℚ) : EducationalResource :=
  { conceptID := c, conceptName := c, title := u, url := u,
    resourceType := t, qualityScore := q, scrapedAt := 0 }

/-- An environment whose vector search fails while the three fatal stages
succeed. -/
def envVectorDown : Services.PipelineEnv :=
  { identifyConcepts := fun _ => .ok ["limits"]
    findPrerequisitePath := fun _ =>
      .ok [{ id := "l", name := "limits", description := "", type := "target" }]
    vectorSearch := fun _ _ => .error "weaviate unreachable"
    generateExplanation := fun _ => .ok "a limit describes the value a function approaches"
    provider := "gemini"
    model := "gemini-pro"
    hasScraper := true }

/-- An environment whose concept identification returns no concepts; all
other stages succeed. -/
def envNoConcepts : Services.PipelineEnv :=
  { identifyConcepts := fun _ => .ok []
    findPrerequisitePath := fun _ => .ok []
    vectorSearch := fun _ _ => .ok []
    generateExplanation := fun _ => .ok "generic explanation"
    provider := "gemini"
    model := "gemini-pro"
    hasScraper := true }

/-- A successful cached query record for the concept limits, created at
instant 0. -/
def cachedLimits : Entities.Query :=
  { id := "q1", userID := "", text := "explain limits",
    identifiedConcepts := ["limits", "functions"]
    prerequisitePath := [{ id := "l", name := "limits", description := "", type := "target" }]
    response := { explanation := "cached limits explanation",
                  retrievedContext := ["chunk"], llmProvider := "gemini",
                  llmModel := "gemini-pro" }
    timestamp := 0, processingTimeMs := 5, success := true, errorMessage := ""
    metadata := { processingSteps := [], requestID := "" } }

/-- Three-node graph: alpha -> beta -> target; beta has a direct (length-1)
prerequisite path to the target, alpha only a length-2 one. -/
def cexGraph : Neo4j.Graph :=
  { concepts := [{ id := "a", name := "alpha", description := "" },
                 { id := "b", name := "beta", description := "" },
                 { id := "t", name := "target", description := "" }]
    edges := [("a", "b"), ("b", "t")] }

/-- The lookup the deployed client performs against a reachable graph. -/
def stdLookup (g : Neo4j.Graph) : String → Except String (Option String) :=
  fun n => .ok (Neo4j.FindConceptID g n)

/-- A lookup that fails for every name (graph unreachable). -/
def downLookup : String → Except String (Option String) :=
  fun _ => .error "neo4j unreachable"

end Fixtures

/-! ## Helper lemmas: the bubble sort by quality score -/

namespace Scraper

theorem bubblePass_nil : bubblePass [] = [] := by
  simp [bubblePass]

theorem bubblePass_single (a : EducationalResource) : bubblePass [a] = [a] := by
  simp [bubblePass]

theorem bubblePass_cons_cons (a b : EducationalResource) (l : List EducationalResource) :
    bubblePass (a :: b :: l) =
      if a.qualityScore < b.qualityScore then b :: bubblePass (a :: l)
      else a :: bubblePass (b :: l) := by
  rw [bubblePass]

theorem bubblePass_perm (l : List EducationalResource) : List.Perm (bubblePass l) l := by
  generalize hn : l.length = n
  induction n using Nat.strong_induction_on generalizing l with
  | _ n ih =>
    match l with
    | [] => simp [bubblePass_nil]
    | [a] => simp [bubblePass_single]
    | a :: b :: rest =>
      rw [bubblePass_cons_cons]
      split
      · exact ((ih (a :: rest).length (by simp [← hn]) (a :: rest) rfl).cons b).trans
          (List.Perm.swap a b rest)
      · exact (ih (b :: rest).length (by simp [← hn]) (b :: rest) rfl).cons a

theorem bubblePass_length (l : List EducationalResource) :
    (bubblePass l).length = l.length :=
  (bubblePass_perm l).length_eq

theorem bubblePass_min_last (l : List EducationalResource) (hl : l ≠ []) :
    ∃ front y, bubblePass l = front ++ [y] ∧
      ∀ x ∈ l, y.qualityScore ≤ x.qualityScore := by
  generalize hn : l.length = n
  induction n using Nat.strong_induction_on generalizing l with
  | _ n ih =>
    match l, hl with
    | [], h => exact absurd rfl h
    | [a], _ => exact ⟨[], a, by simp [bubblePass_single], by simp⟩
    | a :: b :: rest, _ =>
      rw [bubblePass_cons_cons]
      by_cases hab : a.qualityScore < b.qualityScore
      · rw [if_pos hab]
        obtain ⟨front, y, heq, hmin⟩ :=
          ih (a :: rest).length (by simp [← hn]) (a :: rest) (by simp) rfl
        refine ⟨b :: front, y, by rw [heq]; simp, ?_⟩
        intro x hx
        rcases List.mem_cons.mp hx with rfl | hx
        · exact hmin x (by simp)
        rcases List.mem_cons.mp hx with rfl | hx
        · exact le_trans (hmin a (by simp)) (le_of_lt hab)
        · exact hmin x (by simp [hx])
      · rw [if_neg hab]
        obtain ⟨front, y, heq, hmin⟩ :=
          ih (b :: rest).length (by simp [← hn]) (b :: rest) (by simp) rfl
        refine ⟨a :: front, y, by rw [heq]; simp, ?_⟩
        intro x hx
        rcases List.mem_cons.mp hx with rfl | hx
        · exact le_trans (hmin b (by simp)) (not_lt.mp hab)
        · exact hmin x hx

theorem bubblePass_append_min (front : List EducationalResource)
    (y : EducationalResource)
    (h : ∀ x ∈ front, y.qualityScore ≤ x.qualityScore) :
    bubblePass (front ++ [y]) = bubblePass front ++ [y] := by
  generalize hn : front.length = n
  induction n using Nat.strong_induction_on generalizing front with
  | _ n ih =>
    match front, h with
    | [], _ => simp [bubblePass_nil, bubblePass_single]
    | [a], h =>
      have hya : y.qualityScore ≤ a.qualityScore := h a (by simp)
      simp only [List.cons_append, List.nil_append]
      rw [bubblePass_cons_cons, if_neg (not_lt.mpr hya), bubblePass_single,
        bubblePass_single]
      rfl
    | a :: b :: f, h =>
      simp only [List.cons_append]
      rw [bubblePass_cons_cons, bubblePass_cons_cons (l := f)]
      by_cases hab : a.qualityScore < b.qualityScore
      · rw [if_pos hab, if_pos hab]
        have hsub : ∀ x ∈ a :: f, y.qualityScore ≤ x.qualityScore := by
          intro x hx
          rcases List.mem_cons.mp hx with rfl | hx
          · exact h x (by simp)
          · exact h x (by simp [hx])
        have hrec := ih (a :: f).length (by simp [← hn]) (a :: f) hsub rfl
        simp only [List.cons_append] at hrec
        rw [hrec]
        simp
      · rw [if_neg hab, if_neg hab]
        have hsub : ∀ x ∈ b :: f, y.qualityScore ≤ x.qualityScore := by
          intro x hx
          rcases List.mem_cons.mp hx with rfl | hx
          · exact h x (by simp)
          · exact h x (by simp [hx])
        have hrec := ih (b :: f).length (by simp [← hn]) (b :: f) hsub rfl
        simp only [List.cons_append] at hrec
        rw [hrec]
        simp

theorem bubblePass_iterate_perm (k : Nat) (l : List EducationalResource) :
    List.Perm (bubblePass^[k] l) l := by
  induction k generalizing l with
  | zero => simp
  | succ k ihk =>
    rw [Function.iterate_succ_apply]
    exact (ihk (bubblePass l)).trans (bubblePass_perm l)

theorem bubblePass_iterate_append_min (k : Nat) (front : List EducationalResource)
    (y : EducationalResource)
    (h : ∀ x ∈ front, y.qualityScore ≤ x.qualityScore) :
    bubblePass^[k] (front ++ [y]) = bubblePass^[k] front ++ [y] := by
  induction k generalizing front with
  | zero => simp
  | succ k ihk =>
    rw [Function.iterate_succ_apply, Function.iterate_succ_apply,
      bubblePass_append_min front y h]
    exact ihk (bubblePass front)
      (fun x hx => h x ((bubblePass_perm front).subset hx))

theorem sortByQualityDesc_perm (l : List EducationalResource) :
    List.Perm (sortByQualityDesc l) l :=
  bubblePass_iterate_perm _ l

theorem sortByQualityDesc_sorted (l : List EducationalResource) :
    (sortByQualityDesc l).Sorted
      (fun a b => b.qualityScore ≤ a.qualityScore) := by
  generalize hn : l.length = n
  induction n using Nat.strong_induction_on generalizing l with
  | _ n ih =>
    match n, l, hn with
    | 0, l, hn =>
      have : l = [] := List.length_eq_zero.mp hn
      subst this
      simp [sortByQualityDesc]
    | 1, l, hn =>
      obtain ⟨a, rfl⟩ := List.length_eq_one.mp hn
      simp [sortByQualityDesc]
    | m + 2, l, hn =>
      have hne : l ≠ [] := by intro h; subst h; simp at hn
      have hlen1 : l.length - 1 = m + 1 := by omega
      unfold sortByQualityDesc
      rw [hlen1, Function.iterate_succ_apply]
      obtain ⟨front, y, heq, hmin⟩ := bubblePass_min_last l hne
      have hfl : front.length = m + 1 := by
        have hbl := bubblePass_length l
        rw [heq] at hbl
        simp at hbl
        omega
      have hymem : ∀ x ∈ front, y.qualityScore ≤ x.qualityScore := by
        intro x hx
        exact hmin x ((bubblePass_perm l).subset
          (heq ▸ List.mem_append_left [y] hx))
      rw [heq, bubblePass_iterate_append_min m front y hymem]
      have hsf : (bubblePass^[m] front).Sorted
          (fun a b => b.qualityScore ≤ a.qualityScore) := by
        have h2 := ih (m + 1) (by omega) front hfl
        unfold sortByQualityDesc at h2
        rw [hfl] at h2
        simpa using h2
      rw [List.Sorted, List.pairwise_append]
      refine ⟨hsf, List.pairwise_singleton _ _, ?_⟩
      intro a ha b hb
      rcases List.mem_singleton.mp hb with rfl
      exact hymem a ((bubblePass_iterate_perm m front).subset ha)

/-! ## Helper lemmas: the quality-filter admission loop -/

theorem totalFor_cons (e : (String × String) × Nat) (es : CountMap) (c : String) :
    totalFor (e :: es) c =
      if e.1.1 = c then e.2 + totalFor es c else totalFor es c := by
  by_cases h : e.1.1 = c
  · simp [totalFor, List.filter_cons, h]
  · simp [totalFor, List.filter_cons, h]

theorem countFor_incrCount (m : CountMap) (k j : String × String) :
    countFor (incrCount m k) j =
      if j = k then countFor m k + 1 else countFor m j := by
  induction m with
  | nil =>
    by_cases h : j = k
    · subst h; simp [incrCount, countFor]
    · have hkj : ¬(k = j) := fun hk => h hk.symm
      simp [incrCount, countFor, h, hkj]
  | cons e es ihm =>
    by_cases he : e.1 = k
    · by_cases hj : j = k
      · subst hj
        simp [incrCount, countFor, he]
      · have hkj : ¬(k = j) := fun hk => hj hk.symm
        simp [incrCount, countFor, he, hj, hkj]
    · by_cases hej : e.1 = j
      · have hj : ¬(j = k) := fun hk => he (by rw [hej, hk])
        simp [incrCount, countFor, he, hej, hj]
      · simp [incrCount, countFor, he, hej, ihm]
theorem totalFor_incrCount (m : CountMap) (c t c' : String) :
    totalFor (incrCount m (c, t)) c' =
      if c' = c then totalFor m c' + 1 else totalFor m c' := by
  induction m with
  | nil =>
    by_cases h : c' = c
    · subst h; simp [incrCount, totalFor_cons, totalFor]
    · have hcc : ¬(c = c') := fun hk => h hk.symm
      simp [incrCount, totalFor_cons, totalFor, hcc, h]
  | cons e es ihm =>
    by_cases he : e.1 = (c, t)
    · have he1 : e.1.1 = c := by rw [he]
      rw [incrCount, if_pos he, totalFor_cons, totalFor_cons]
      by_cases h : c' = c
      · rw [if_pos h, if_pos (he1.trans h.symm), if_pos (he1.trans h.symm)]
        omega
      · have hne : ¬(e.1.1 = c') := fun hk => h ((he1 ▸ hk : c = c').symm)
        rw [if_neg h, if_neg hne, if_neg hne]
    · rw [incrCount, if_neg he, totalFor_cons, totalFor_cons, ihm]
      split_ifs <;> omega
theorem admitLoop_sublist (counts : CountMap) (rs : List EducationalResource) :
    (admitLoop counts rs).Sublist rs := by
  induction rs generalizing counts with
  | nil => simp [admitLoop]
  | cons r rs ihr =>
    rw [admitLoop]
    split
    · exact (ihr counts).cons r
    · split
      · exact (ihr counts).cons r
      · split
        · exact (ihr counts).cons r
        · split
          · exact (ihr counts).cons r
          · exact (ihr _).cons₂ r

theorem admitLoop_quality (counts : CountMap) (rs : List EducationalResource) :
    ∀ x ∈ admitLoop counts rs, (0.4 : ℚ) ≤ x.qualityScore := by
  induction rs generalizing counts with
  | nil => simp [admitLoop]
  | cons r rs ihr =>
    rw [admitLoop]
    split
    · exact ihr counts
    · next hq =>
      split
      · exact ihr counts
      · split
        · exact ihr counts
        · split
          · exact ihr counts
          · intro x hx
            rcases List.mem_cons.mp hx with rfl | hx
            · exact not_lt.mp hq
            · exact ihr _ x hx

theorem admitLoop_total_cap (rs : List EducationalResource) (counts : CountMap)
    (c : String) (h : totalFor counts c ≤ 6) :
    totalFor counts c +
      (admitLoop counts rs).countP (fun r => r.conceptID = c) ≤ 6 := by
  induction rs generalizing counts with
  | nil => simpa [admitLoop]
  | cons r rs ihr =>
    rw [admitLoop]
    split
    · exact ihr counts h
    · split
      · exact ihr counts h
      · next h6 =>
        split
        · exact ihr counts h
        · split
          · exact ihr counts h
          · simp only [List.countP_cons]
            by_cases hc : r.conceptID = c
            · have hih := ihr (incrCount counts (r.conceptID, r.resourceType))
                (by rw [totalFor_incrCount, if_pos hc.symm]
                    rw [hc] at h6; omega)
              rw [totalFor_incrCount, if_pos hc.symm] at hih
              rw [if_pos (decide_eq_true hc)]
              omega
            · have hih := ihr (incrCount counts (r.conceptID, r.resourceType))
                (by rw [totalFor_incrCount, if_neg (fun he => hc he.symm)]; exact h)
              rw [totalFor_incrCount, if_neg (fun he => hc he.symm)] at hih
              rw [if_neg (by simp [hc])]
              omega
theorem admitLoop_video_cap (rs : List EducationalResource) (counts : CountMap)
    (c : String) (h : countFor counts (c, "video") ≤ 3) :
    countFor counts (c, "video") +
      (admitLoop counts rs).countP
        (fun r => r.conceptID = c && r.resourceType = "video") ≤ 3 := by
  induction rs generalizing counts with
  | nil => simpa [admitLoop]
  | cons r rs ihr =>
    rw [admitLoop]
    split
    · exact ihr counts h
    · split
      · exact ihr counts h
      · split
        · next hvid =>
          exact ihr counts h
        · next hvid =>
          split
          · exact ihr counts h
          · simp only [List.countP_cons]
            by_cases hm : r.conceptID = c ∧ r.resourceType = "video"
            · obtain ⟨hc, ht⟩ := hm
              have hkey : ((c, "video") : String × String) = (r.conceptID, r.resourceType) := by
                rw [hc, ht]
              have hlt : countFor counts (c, "video") ≤ 2 := by
                by_contra hgt
                refine hvid ⟨ht, ?_⟩
                rw [hc]
                omega
              have hih := ihr (incrCount counts (r.conceptID, r.resourceType))
                (by rw [countFor_incrCount, if_pos hkey, ← hkey]; omega)
              rw [countFor_incrCount, if_pos hkey] at hih
              rw [if_pos (by simp [hc, ht]), hkey]
              omega
            · have hkey : ¬(((c, "video") : String × String) = (r.conceptID, r.resourceType)) := by
                intro hk
                rw [Prod.mk.injEq] at hk
                exact hm ⟨hk.1.symm, hk.2.symm⟩
              have hih := ihr (incrCount counts (r.conceptID, r.resourceType))
                (by rw [countFor_incrCount, if_neg hkey]; exact h)
              rw [countFor_incrCount, if_neg hkey] at hih
              rw [if_neg (by rcases not_and_or.mp hm with hx | hx <;> simp [hx])]
              omega
theorem admitLoop_arttut_cap (rs : List EducationalResource) (counts : CountMap)
    (c : String)
    (h : countFor counts (c, "article") + countFor counts (c, "tutorial") ≤ 3) :
    countFor counts (c, "article") + countFor counts (c, "tutorial") +
      (admitLoop counts rs).countP
        (fun r => r.conceptID = c &&
          (r.resourceType = "article" || r.resourceType = "tutorial")) ≤ 3 := by
  induction rs generalizing counts with
  | nil => simpa [admitLoop]
  | cons r rs ihr =>
    rw [admitLoop]
    split
    · exact ihr counts h
    · split
      · exact ihr counts h
      · split
        · exact ihr counts h
        · split
          · next hat =>
            exact ihr counts h
          · next hat =>
            simp only [List.countP_cons]
            by_cases hm : r.conceptID = c ∧
                (r.resourceType = "article" ∨ r.resourceType = "tutorial")
            · obtain ⟨hc, ht⟩ := hm
              have hsum : countFor counts (c, "article") +
                  countFor counts (c, "tutorial") ≤ 2 := by
                by_contra hgt
                refine hat ⟨ht, ?_⟩
                rw [hc]
                omega
              have hstep : countFor (incrCount counts (r.conceptID, r.resourceType)) (c, "article") +
                  countFor (incrCount counts (r.conceptID, r.resourceType)) (c, "tutorial") =
                  countFor counts (c, "article") + countFor counts (c, "tutorial") + 1 := by
                rcases ht with ha | ha
                · rw [countFor_incrCount, countFor_incrCount,
                    if_pos (by rw [hc, ha]),
                    if_neg (by rw [hc, ha]; intro hk; rw [Prod.mk.injEq] at hk; simp at hk)]
                  rw [hc, ha]
                  omega
                · rw [countFor_incrCount, countFor_incrCount,
                    if_neg (by rw [hc, ha]; intro hk; rw [Prod.mk.injEq] at hk; simp at hk),
                    if_pos (by rw [hc, ha])]
                  rw [hc, ha]
                  omega
              have hih := ihr (incrCount counts (r.conceptID, r.resourceType))
                (by rw [hstep]; omega)
              rw [hstep] at hih
              rw [if_pos (by rcases ht with ha | ha <;> simp [hc, ha])]
              omega
            · have hkeya : ¬(((c, "article") : String × String) = (r.conceptID, r.resourceType)) := by
                intro hk
                rw [Prod.mk.injEq] at hk
                exact hm ⟨hk.1.symm, Or.inl hk.2.symm⟩
              have hkeyt : ¬(((c, "tutorial") : String × String) = (r.conceptID, r.resourceType)) := by
                intro hk
                rw [Prod.mk.injEq] at hk
                exact hm ⟨hk.1.symm, Or.inr hk.2.symm⟩
              have hih := ihr (incrCount counts (r.conceptID, r.resourceType))
                (by rw [countFor_incrCount, if_neg hkeya,
                        countFor_incrCount, if_neg hkeyt]; exact h)
              rw [countFor_incrCount, if_neg hkeya,
                  countFor_incrCount, if_neg hkeyt] at hih
              rw [if_neg (by
                rcases not_and_or.mp hm with hx | hx
                · simp [hx]
                · rcases not_or.mp hx with ⟨h1, h2⟩
                  simp [h1, h2])]
              omega
end Scraper

/-! ## Helper lemmas: first-occurrence deduplication and the URL upsert -/

theorem keepFirstBy_nil {α κ : Type} [DecidableEq κ] (key : α → κ) :
    keepFirstBy key [] = [] := by
  simp [keepFirstBy]

theorem keepFirstBy_cons {α κ : Type} [DecidableEq κ] (key : α → κ) (a : α)
    (as : List α) :
    keepFirstBy key (a :: as) =
      a :: keepFirstBy key (as.filter (fun x => key x ≠ key a)) := by
  rw [keepFirstBy]

theorem keepFirstBy_sublist {α κ : Type} [DecidableEq κ] (key : α → κ)
    (l : List α) : (keepFirstBy key l).Sublist l := by
  generalize hn : l.length = n
  induction n using Nat.strong_induction_on generalizing l with
  | _ n ih =>
    match l with
    | [] => simp [keepFirstBy_nil]
    | a :: as =>
      rw [keepFirstBy_cons]
      have h1 : (keepFirstBy key (as.filter (fun x => key x ≠ key a))).Sublist
          (as.filter (fun x => key x ≠ key a)) :=
        ih (as.filter (fun x => key x ≠ key a)).length
          (by rw [← hn]; simp only [List.length_cons]
              exact Nat.lt_succ_of_le (List.length_filter_le _ _)) _ rfl
      exact List.Sublist.cons₂ a (h1.trans (List.filter_sublist as))

theorem keepFirstBy_pairwise {α κ : Type} [DecidableEq κ] (key : α → κ)
    (l : List α) :
    (keepFirstBy key l).Pairwise (fun a b => key a ≠ key b) := by
  generalize hn : l.length = n
  induction n using Nat.strong_induction_on generalizing l with
  | _ n ih =>
    match l with
    | [] => simp [keepFirstBy_nil]
    | a :: as =>
      rw [keepFirstBy_cons]
      refine List.Pairwise.cons ?_
        (ih (as.filter (fun x => key x ≠ key a)).length
          (by rw [← hn]; simp only [List.length_cons]
              exact Nat.lt_succ_of_le (List.length_filter_le _ _)) _ rfl)
      intro b hb
      have hmem := (keepFirstBy_sublist key _).subset hb
      have hprop := List.of_mem_filter hmem
      intro hk
      simp [hk] at hprop

theorem dedupGo_eq_keepFirstBy (seen : List String)
    (rs : List EducationalResource) :
    Scraper.dedupGo seen rs =
      keepFirstBy (fun r => r.url) (rs.filter (fun r => r.url ∉ seen)) := by
  induction rs generalizing seen with
  | nil => simp [Scraper.dedupGo, keepFirstBy_nil]
  | cons r rs ihr =>
    rw [Scraper.dedupGo]
    split
    · next hmem =>
      rw [List.filter_cons, if_neg (by simpa using hmem)]
      exact ihr seen
    · next hmem =>
      rw [List.filter_cons, if_pos (by simpa using hmem), keepFirstBy_cons,
        ihr (r.url :: seen), List.filter_filter]
      have hfil : rs.filter (fun x => decide (x.url ∉ r.url :: seen)) =
          rs.filter (fun a => decide (a.url ≠ r.url) && decide (a.url ∉ seen)) := by
        apply List.filter_congr
        intro x _
        by_cases h1 : x.url = r.url <;> by_cases h2 : x.url ∈ seen <;>
          simp [h1, h2]
      rw [hfil]

theorem deduplicateResources_eq_keepFirstBy (rs : List EducationalResource) :
    Scraper.deduplicateResources rs = keepFirstBy (fun r => r.url) rs := by
  rw [Scraper.deduplicateResources, dedupGo_eq_keepFirstBy]
  congr 1
  simp

theorem removeDuplicateStringsGo_eq (keys : List String) (l : List String) :
    Services.removeDuplicateStrings.go keys l =
      keepFirstBy (fun s => (toLowerStr s).trim)
        (l.filter (fun s => (toLowerStr s).trim ∉ keys ∧ (toLowerStr s).trim ≠ "")) := by
  induction l generalizing keys with
  | nil => simp [Services.removeDuplicateStrings.go, keepFirstBy_nil]
  | cons s l ihl =>
    rw [Services.removeDuplicateStrings.go]
    split
    · next hcond =>
      rw [List.filter_cons, if_pos (by simpa using hcond), keepFirstBy_cons,
        ihl ((toLowerStr s).trim :: keys), List.filter_filter]
      have hfil : l.filter
            (fun x => decide ((toLowerStr x).trim ∉ (toLowerStr s).trim :: keys ∧ (toLowerStr x).trim ≠ "")) =
          l.filter (fun a => decide ((toLowerStr a).trim ≠ (toLowerStr s).trim) &&
            decide ((toLowerStr a).trim ∉ keys ∧ (toLowerStr a).trim ≠ "")) := by
        apply List.filter_congr
        intro x _
        by_cases h1 : (toLowerStr x).trim = (toLowerStr s).trim <;>
          by_cases h2 : (toLowerStr x).trim ∈ keys <;>
          by_cases h3 : (toLowerStr x).trim = "" <;>
          simp [h1, h2, h3]
      rw [hfil]
    · next hcond =>
      rw [List.filter_cons, if_neg (by simpa using hcond)]
      exact ihl keys

theorem removeDuplicateStrings_eq (l : List String) :
    Services.removeDuplicateStrings l =
      keepFirstBy (fun s => (toLowerStr s).trim)
        (l.filter (fun s => (toLowerStr s).trim ≠ "")) := by
  rw [Services.removeDuplicateStrings, removeDuplicateStringsGo_eq]
  congr 1
  apply List.filter_congr
  intro x _
  simp

theorem upsertOne_existing (store : List EducationalResource)
    (b : EducationalResource) (h : ∃ d ∈ store, d.url = b.url) :
    (Scraper.upsertOne store b).length = store.length ∧
      (Scraper.upsertOne store b).map (fun d => d.url) =
        store.map (fun d => d.url) := by
  rw [Scraper.upsertOne, if_pos (by simpa [List.any_eq_true] using h)]
  refine ⟨by simp, ?_⟩
  rw [List.map_map]
  apply List.map_congr_left
  intro d _
  by_cases hd : d.url = b.url
  · simp [Function.comp, hd]
  · simp [Function.comp, hd]

theorem upsertOne_fresh (store : List EducationalResource)
    (b : EducationalResource) (h : ∀ d ∈ store, d.url ≠ b.url) :
    Scraper.upsertOne store b = store ++ [b] := by
  have hne : ¬(store.any (fun d => d.url = b.url) = true) := by
    simp only [List.any_eq_true]
    rintro ⟨d, hd, he⟩
    exact h d hd (by simpa using he)
  rw [Scraper.upsertOne, if_neg hne]

theorem upsertOne_pairwise (store : List EducationalResource)
    (b : EducationalResource)
    (h : store.Pairwise (fun x y => x.url ≠ y.url)) :
    (Scraper.upsertOne store b).Pairwise (fun x y => x.url ≠ y.url) := by
  have hurl : ∀ d : EducationalResource,
      (if d.url = b.url then b else d).url = d.url := by
    intro d
    by_cases hd : d.url = b.url
    · rw [if_pos hd, hd]
    · rw [if_neg hd]
  rw [Scraper.upsertOne]
  split
  · refine List.Pairwise.map _ (fun x y hxy => ?_) h
    simp only [hurl]
    exact hxy
  · next hany =>
    rw [List.pairwise_append]
    refine ⟨h, List.pairwise_singleton _ _, ?_⟩
    intro x hx y hy
    rcases List.mem_singleton.mp hy with rfl
    intro he
    exact hany (by simp only [List.any_eq_true]; exact ⟨x, hx, by simpa using he⟩)

theorem storeResources_pairwise (rs store : List EducationalResource)
    (h : store.Pairwise (fun x y => x.url ≠ y.url)) :
    (Scraper.storeResources store rs).Pairwise (fun x y => x.url ≠ y.url) := by
  induction rs generalizing store with
  | nil => simpa [Scraper.storeResources]
  | cons r rs ihr =>
    rw [Scraper.storeResources, List.foldl_cons]
    exact ihr (Scraper.upsertOne store r) (upsertOne_pairwise store r h)

theorem resolveTargetIDs_eq_filterMap
    (lookup : String → Except String (Option String)) (names : List String) :
    Neo4j.resolveTargetIDs lookup names =
      names.filterMap (Neo4j.resolvedID lookup) := by
  induction names with
  | nil => simp [Neo4j.resolveTargetIDs]
  | cons n ns ih =>
    cases hl : lookup n with
    | error e =>
      simp [Neo4j.resolveTargetIDs, Neo4j.resolvedID, hl, ih]
    | ok o =>
      cases o <;> simp [Neo4j.resolveTargetIDs, Neo4j.resolvedID, hl, ih]

theorem charListLE_total (xs ys : List Char) :
    charListLE xs ys = true ∨ charListLE ys xs = true := by
  induction xs generalizing ys with
  | nil => left; rfl
  | cons a as ih =>
    cases ys with
    | nil => right; rfl
    | cons b bs =>
      by_cases h1 : a < b
      · left; simp [charListLE, h1]
      · by_cases h2 : b < a
        · right; simp [charListLE, h2]
        · rcases ih bs with h | h
          · left; simp [charListLE, h1, h2, h]
          · right; simp [charListLE, h1, h2, h]

theorem charListLE_trans (xs ys zs : List Char)
    (h1 : charListLE xs ys = true) (h2 : charListLE ys zs = true) :
    charListLE xs zs = true := by
  induction xs generalizing ys zs with
  | nil => rfl
  | cons a as ih =>
    cases ys with
    | nil => simp [charListLE] at h1
    | cons b bs =>
      cases zs with
      | nil => simp [charListLE] at h2
      | cons c cs =>
        simp only [charListLE] at h1 h2 ⊢
        by_cases hab : a < b
        · by_cases hbc : b < c
          · simp [lt_trans hab hbc]
          · by_cases hcb : c < b
            · simp [hbc, hcb] at h2
            · have hbceq : b = c := le_antisymm (not_lt.mp hcb) (not_lt.mp hbc)
              subst hbceq
              simp [hab]
        · by_cases hba : b < a
          · simp [hab, hba] at h1
          · have habeq : a = b := le_antisymm (not_lt.mp hba) (not_lt.mp hab)
            subst habeq
            simp only [if_neg hab, if_neg hba] at h1 ⊢
            by_cases hbc : a < c
            · simp [hbc]
            · by_cases hcb : c < a
              · simp [hbc, hcb] at h2
              · simp only [if_neg hbc, if_neg hcb] at h2 ⊢
                exact ih bs cs h1 h2

theorem distinctGo_subset {α : Type} [DecidableEq α] (seen : List α)
    (l : List α) : ∀ x ∈ Neo4j.distinctGo seen l, x ∈ l := by
  induction l generalizing seen with
  | nil => simp [Neo4j.distinctGo]
  | cons a as ih =>
    rw [Neo4j.distinctGo]
    split
    · intro x hx
      exact List.mem_cons_of_mem a (ih seen x hx)
    · intro x hx
      rcases List.mem_cons.mp hx with rfl | hx
      · exact List.mem_cons_self _ _
      · exact List.mem_cons_of_mem a (ih _ x hx)

theorem rowLE_total (tids : List String) (x y : Concept) :
    Neo4j.rowLE tids x y = true ∨ Neo4j.rowLE tids y x = true := by
  simp only [Neo4j.rowLE, Bool.or_eq_true, Bool.and_eq_true, decide_eq_true_eq]
  rcases Nat.lt_trichotomy (if x.id ∈ tids then 1 else 0)
      (if y.id ∈ tids then 1 else 0) with h | h | h
  · exact Or.inl (Or.inl h)
  · rcases charListLE_total x.name.toList y.name.toList with hc | hc
    · exact Or.inl (Or.inr ⟨h, hc⟩)
    · exact Or.inr (Or.inr ⟨h.symm, hc⟩)
  · exact Or.inr (Or.inl h)

theorem rowLE_trans (tids : List String) (x y z : Concept)
    (h1 : Neo4j.rowLE tids x y = true) (h2 : Neo4j.rowLE tids y z = true) :
    Neo4j.rowLE tids x z = true := by
  simp only [Neo4j.rowLE, Bool.or_eq_true, Bool.and_eq_true,
    decide_eq_true_eq] at h1 h2 ⊢
  rcases h1 with h1 | ⟨h1e, h1s⟩
  · rcases h2 with h2 | ⟨h2e, h2s⟩
    · exact Or.inl (Nat.lt_trans h1 h2)
    · exact Or.inl (h2e ▸ h1)
  · rcases h2 with h2 | ⟨h2e, h2s⟩
    · exact Or.inl (h1e ▸ h2)
    · exact Or.inr ⟨h1e.trans h2e, charListLE_trans _ _ _ h1s h2s⟩

theorem runPrereqQuery_type_mem (g : Neo4j.Graph) (tids : List String) :
    ∀ r ∈ Neo4j.runPrereqQuery g tids,
      r.type = (if r.id ∈ tids then "target" else "prerequisite") := by
  intro r hr
  have hr1 := (List.perm_insertionSort _ _).subset hr
  have hr2 := distinctGo_subset _ _ r hr1
  rw [List.mem_map] at hr2
  obtain ⟨node, _, rfl⟩ := hr2
  simp [Neo4j.rowOf]

theorem runPrereqQuery_sorted (g : Neo4j.Graph) (tids : List String) :
    (Neo4j.runPrereqQuery g tids).Pairwise
      (fun x y => Neo4j.rowLE tids x y = true) := by
  haveI htot : IsTotal Concept (fun x y => Neo4j.rowLE tids x y = true) :=
    ⟨fun x y => rowLE_total tids x y⟩
  haveI htr : IsTrans Concept (fun x y => Neo4j.rowLE tids x y = true) :=
    ⟨fun x y z => rowLE_trans tids x y z⟩
  exact List.sorted_insertionSort _ _

/-! ## Claim theorems -/

/-- C9: the claim that the query service computes the same normalized
concept identifier as the scraper fails: on the input string with a hyphen
the scraper maps the hyphen to an underscore (and strips other specials)
while the service only lower-cases and replaces spaces, so retrieval looks
up a key under which discovery never stored.  The service's own comment
(same logic as scraper, for consistency) documents the intent the code
misses. -/
theorem generateConceptID_mismatch :
    Scraper.generateConceptID "power-rule" = "power_rule" ∧
    Services.generateConceptID "power-rule" = "power-rule" ∧
    Scraper.generateConceptID "power-rule" ≠
      Services.generateConceptID "power-rule" := by
  refine ⟨by decide, by decide, by decide⟩

/-- C10: the cache-hit background job scrapes the queried concept followed
by the record's identified concepts, deduplicated by the trimmed
lower-cased key with empty keys dropped (first occurrence wins), truncated
to the first 3 survivors; hence at most 3 concepts, all drawn from the
input, with pairwise distinct normalized keys. -/
theorem gatherConcepts_characterization (conceptName : String)
    (identifiedConcepts : List String) :
    Services.gatherConcepts conceptName identifiedConcepts =
      (keepFirstBy (fun s => (toLowerStr s).trim)
        ((conceptName :: identifiedConcepts).filter
          (fun s => (toLowerStr s).trim ≠ ""))).take 3 ∧
    (Services.gatherConcepts conceptName identifiedConcepts).length ≤ 3 ∧
    (Services.gatherConcepts conceptName identifiedConcepts).Sublist
      (conceptName :: identifiedConcepts) ∧
    (Services.gatherConcepts conceptName identifiedConcepts).Pairwise
      (fun a b => (toLowerStr a).trim ≠ (toLowerStr b).trim) := by
  have h1 : Services.gatherConcepts conceptName identifiedConcepts =
      (keepFirstBy (fun s => (toLowerStr s).trim)
        ((conceptName :: identifiedConcepts).filter
          (fun s => (toLowerStr s).trim ≠ ""))).take 3 := by
    rw [Services.gatherConcepts, removeDuplicateStrings_eq]
  refine ⟨h1, ?_, ?_, ?_⟩
  · rw [h1]
    exact List.length_take_le 3 _
  · rw [h1]
    exact (List.take_sublist _ _).trans
      ((keepFirstBy_sublist _ _).trans (List.filter_sublist _))
  · rw [h1]
    exact List.Pairwise.sublist (List.take_sublist _ _) (keepFirstBy_pairwise _ _)

/-- C7: prerequisite-path resolution never fails on absent concepts: the
empty name list returns the empty list before any graph call, unresolvable
names are silently skipped by the id-resolution loop, and when no name
resolves the result is the empty list, not an error. -/
theorem findPrerequisitePath_absentConcepts (g : Neo4j.Graph)
    (lookup : String → Except String (Option String)) (names : List String) :
    Neo4j.FindPrerequisitePath g lookup [] = .ok [] ∧
    Neo4j.resolveTargetIDs lookup names =
      names.filterMap (Neo4j.resolvedID lookup) ∧
    ((∀ n ∈ names, Neo4j.resolvedID lookup n = none) →
      Neo4j.FindPrerequisitePath g lookup names = .ok []) := by
  refine ⟨by simp [Neo4j.FindPrerequisitePath],
    resolveTargetIDs_eq_filterMap lookup names, ?_⟩
  intro h
  have h0 : Neo4j.resolveTargetIDs lookup names = [] := by
    rw [resolveTargetIDs_eq_filterMap]
    exact List.filterMap_eq_nil_iff.mpr h
  rw [Neo4j.FindPrerequisitePath]
  split
  · rfl
  · simp [h0]

/-- C7 witness: a graph lookup that errors on every name yields the empty
path for a non-empty name list. -/
theorem findPrerequisitePath_absentConcepts_witness :
    Neo4j.FindPrerequisitePath Fixtures.cexGraph Fixtures.downLookup
      ["ghost concept"] = .ok [] :=
  (findPrerequisitePath_absentConcepts Fixtures.cexGraph Fixtures.downLookup
    ["ghost concept"]).2.2 (fun _ _ => rfl)

/-- C1: when stage 3 (vector search) fails while stages 1, 2 and 4 succeed,
`ProcessQuery` returns a non-error result whose retrieved context is empty,
and the retrieval failure is recorded as a failed `vector_search`
processing step on the query handed to the asynchronous save, instead of
being propagated to the caller. -/
theorem processQuery_toleratesVectorSearchFailure
    (env : Services.PipelineEnv) (req : Services.QueryRequest) (now : Int)
    (cs : List String) (path : List Concept) (e expl : String)
    (h1 : env.identifyConcepts req.question = .ok cs)
    (h2 : env.findPrerequisitePath cs = .ok path)
    (h3 : env.vectorSearch req.question 5 = .error e)
    (h4 : env.generateExplanation
      { query := req.question, prerequisitePath := path, contextChunks := [] } =
        .ok expl) :
    ∃ r, (Services.ProcessQuery env req now).result = .ok r ∧
      r.retrievedContext = [] ∧
      r.explanation = expl ∧
      ({ name := "vector_search", duration := 0, success := false, error := e } :
          Entities.ProcessingStep)
        ∈ (Services.ProcessQuery env req now).query.metadata.processingSteps := by
  simp only [Services.ProcessQuery, Services.processQueryPipeline,
    Entities.NewQuery, h1, h2, h3, h4, Except.isOk, Except.toBool,
    List.map_nil, Entities.AddProcessingStep, Entities.MarkCompleted]
  refine ⟨_, rfl, rfl, rfl, ?_⟩
  simp

/-- C1 witness: concrete environment with a failing vector index. -/
theorem processQuery_toleratesVectorSearchFailure_witness :
    ∃ r, (Services.ProcessQuery Fixtures.envVectorDown
        { userID := "u1", question := "what is a limit", requestID := "" }
        0).result = .ok r ∧
      r.retrievedContext = [] ∧
      r.explanation = "a limit describes the value a function approaches" ∧
      ({ name := "vector_search", duration := 0, success := false,
         error := "weaviate unreachable" } : Entities.ProcessingStep)
        ∈ (Services.ProcessQuery Fixtures.envVectorDown
            { userID := "u1", question := "what is a limit", requestID := "" }
            0).query.metadata.processingSteps :=
  processQuery_toleratesVectorSearchFailure Fixtures.envVectorDown
    { userID := "u1", question := "what is a limit", requestID := "" }
    0 ["limits"] [{ id := "l", name := "limits", description := "", type := "target" }]
    "weaviate unreachable" "a limit describes the value a function approaches"
    rfl rfl rfl rfl

/-- C2: with a cached record found, the cached explanation is returned
exactly when the record's age is strictly below the 30-day window;
at or beyond the boundary the call behaves like a cache miss and runs the
fresh pipeline on the synthesized comprehensive-explanation prompt. -/
theorem smartConceptQuery_freshnessWindow
    (env : Services.PipelineEnv) (cq : Entities.Query)
    (conceptName userID requestID : String) (now : Int) :
    (now - cq.timestamp < Services.maxCacheAge →
      Services.SmartConceptQuery env (some cq) conceptName userID requestID now =
        (.ok { query := cq, identifiedConcepts := cq.identifiedConcepts,
               prerequisitePath := cq.prerequisitePath,
               retrievedContext := cq.response.retrievedContext,
               explanation := cq.response.explanation, requestID := requestID },
         if env.hasScraper then
           [Services.gatherConcepts conceptName cq.identifiedConcepts]
         else [])) ∧
    (Services.maxCacheAge ≤ now - cq.timestamp →
      Services.SmartConceptQuery env (some cq) conceptName userID requestID now =
        Services.SmartConceptQuery env none conceptName userID requestID now) ∧
    (Services.SmartConceptQuery env none conceptName userID requestID now =
      ((match (Services.ProcessQuery env
          { userID := userID,
            question := Services.buildConceptQueryPrompt conceptName,
            requestID := requestID } now).result with
        | .error e => .error ("failed to process fresh concept query: " ++ e)
        | .ok r => .ok r),
       (Services.ProcessQuery env
          { userID := userID,
            question := Services.buildConceptQueryPrompt conceptName,
            requestID := requestID } now).dispatchedScrapes)) := by
  refine ⟨?_, ?_, ?_⟩
  · intro h
    simp [Services.SmartConceptQuery, h]
  · intro h
    simp [Services.SmartConceptQuery, not_lt.mpr h]
  · cases hres : (Services.ProcessQuery env
        { userID := userID,
          question := Services.buildConceptQueryPrompt conceptName,
          requestID := requestID } now).result with
    | error e =>
      simp [Services.SmartConceptQuery, Services.SmartConceptQuery.smartFresh, hres]
    | ok r =>
      simp [Services.SmartConceptQuery, Services.SmartConceptQuery.smartFresh, hres]

/-- C2 witness: a 0-aged record is served from cache; a record exactly at
the 30-day boundary is treated as a miss. -/
theorem smartConceptQuery_freshnessWindow_witness :
    (Services.SmartConceptQuery Fixtures.envVectorDown
        (some Fixtures.cachedLimits) "limits" "" "r1" 0 =
      (.ok { query := Fixtures.cachedLimits,
             identifiedConcepts := Fixtures.cachedLimits.identifiedConcepts,
             prerequisitePath := Fixtures.cachedLimits.prerequisitePath,
             retrievedContext := Fixtures.cachedLimits.response.retrievedContext,
             explanation := Fixtures.cachedLimits.response.explanation,
             requestID := "r1" },
       if Fixtures.envVectorDown.hasScraper then
         [Services.gatherConcepts "limits" Fixtures.cachedLimits.identifiedConcepts]
       else [])) ∧
    (Services.SmartConceptQuery Fixtures.envVectorDown
        (some Fixtures.cachedLimits) "limits" "" "r1" Services.maxCacheAge =
      Services.SmartConceptQuery Fixtures.envVectorDown none "limits" "" "r1"
        Services.maxCacheAge) :=
  ⟨(smartConceptQuery_freshnessWindow Fixtures.envVectorDown
      Fixtures.cachedLimits "limits" "" "r1" 0).1
      (by norm_num [Services.maxCacheAge, Fixtures.cachedLimits]),
   (smartConceptQuery_freshnessWindow Fixtures.envVectorDown
      Fixtures.cachedLimits "limits" "" "r1" Services.maxCacheAge).2.1
      (by norm_num [Fixtures.cachedLimits])⟩

/-- Dispatch behaviour of the pipeline: once stages 1 and 2 succeed with a
non-empty concept list and a scraper is present, exactly one background
scrape job is dispatched, covering the first 5 identified concepts. -/
theorem processQueryPipeline_dispatch (env : Services.PipelineEnv)
    (q : Entities.Query) (cs : List String) (path : List Concept)
    (h1 : env.identifyConcepts q.text = .ok cs)
    (h2 : env.findPrerequisitePath cs = .ok path)
    (hcs : cs ≠ []) (henv : env.hasScraper = true) :
    (Services.processQueryPipeline env q).dispatchedScrapes = [cs.take 5] := by
  simp only [Services.processQueryPipeline, h1, h2]
  split <;>
    simp [henv, hcs, Services.scrapeResourcesAsyncConcepts,
      List.length_eq_zero]

/-- C3 counterexample: a fresh-path `SmartConceptQuery` execution in which
concept identification returns the empty list completes successfully but
dispatches no background resource-refresh job at all, so not every
execution dispatches a job covering the queried concept. -/
theorem smartConceptQuery_noDispatch_cex :
    (Services.SmartConceptQuery Fixtures.envNoConcepts none "limits" "" "" 0).2
        = [] ∧
    (Services.SmartConceptQuery Fixtures.envNoConcepts none "limits" "" ""
        0).1.isOk = true := by
  refine ⟨rfl, rfl⟩

/-- C3 amended: on a cache hit (with a scraper present) exactly one
background job is dispatched, covering the queried concept plus the cached
record's identified concepts, deduplicated case-insensitively and truncated
to 3; on a cache miss a job is dispatched only when stages 1 and 2 of the
fresh pipeline succeed with at least one identified concept, and it covers
the first 5 identified concepts of the synthesized prompt, not necessarily
the queried concept. -/
theorem smartConceptQuery_dispatch_amended (env : Services.PipelineEnv)
    (cq : Entities.Query) (conceptName userID requestID : String) (now : Int)
    (cs : List String) (path : List Concept) (henv : env.hasScraper = true) :
    (now - cq.timestamp < Services.maxCacheAge →
      (Services.SmartConceptQuery env (some cq) conceptName userID requestID
          now).2 =
        [Services.gatherConcepts conceptName cq.identifiedConcepts]) ∧
    (env.identifyConcepts (Services.buildConceptQueryPrompt conceptName) =
        .ok cs →
     env.findPrerequisitePath cs = .ok path →
     cs ≠ [] →
      (Services.SmartConceptQuery env none conceptName userID requestID
          now).2 = [cs.take 5]) := by
  constructor
  · intro h
    simp [Services.SmartConceptQuery, h, henv]
  · intro h1 h2 hcs
    have hp := processQueryPipeline_dispatch env
      (Entities.NewQuery userID
        (Services.buildConceptQueryPrompt conceptName) "" now) cs path
      (by simpa [Entities.NewQuery] using h1) h2 hcs henv
    have hpq : (Services.ProcessQuery env
        { userID := userID,
          question := Services.buildConceptQueryPrompt conceptName,
          requestID := requestID } now).dispatchedScrapes = [cs.take 5] := by
      simp only [Services.ProcessQuery]
      split <;> simpa using hp
    simp only [Services.SmartConceptQuery, Services.SmartConceptQuery.smartFresh]
    split <;> simpa using hpq

/-- C3 amended witness: the hit branch at a concrete cached record. -/
theorem smartConceptQuery_dispatch_amended_witness :
    (Services.SmartConceptQuery Fixtures.envVectorDown
        (some Fixtures.cachedLimits) "limits" "" "" 0).2 =
      [Services.gatherConcepts "limits" Fixtures.cachedLimits.identifiedConcepts] :=
  (smartConceptQuery_dispatch_amended Fixtures.envVectorDown
    Fixtures.cachedLimits "limits" "" "" 0 [] [] rfl).1
    (by norm_num [Services.maxCacheAge, Fixtures.cachedLimits])

/-- C4: the batch a scrape run persists never contains a resource with
quality below 0.4, never more than 6 resources of one concept, at most 3
of the video kind and at most 3 of the article and tutorial kinds combined
per concept; candidates are admitted in descending quality order (the
admission input is a descending-sorted permutation of the deduplicated
candidates, and the persisted batch is a descending-sorted sublist of
it). -/
theorem persistedBatch_invariants (allResources : List EducationalResource) :
    (∀ x ∈ Scraper.persistedBatch allResources, (0.4 : ℚ) ≤ x.qualityScore) ∧
    (∀ c, (Scraper.persistedBatch allResources).countP
      (fun r => r.conceptID = c) ≤ 6) ∧
    (∀ c, (Scraper.persistedBatch allResources).countP
      (fun r => r.conceptID = c && r.resourceType = "video") ≤ 3) ∧
    (∀ c, (Scraper.persistedBatch allResources).countP
      (fun r => r.conceptID = c &&
        (r.resourceType = "article" || r.resourceType = "tutorial")) ≤ 3) ∧
    (Scraper.persistedBatch allResources).Sorted
      (fun a b => b.qualityScore ≤ a.qualityScore) ∧
    (Scraper.sortByQualityDesc (Scraper.deduplicateResources allResources)).Sorted
      (fun a b => b.qualityScore ≤ a.qualityScore) ∧
    List.Perm (Scraper.sortByQualityDesc (Scraper.deduplicateResources allResources))
      (Scraper.deduplicateResources allResources) ∧
    (Scraper.persistedBatch allResources).Sublist
      (Scraper.sortByQualityDesc (Scraper.deduplicateResources allResources)) := by
  unfold Scraper.persistedBatch Scraper.filterQualityResources
  refine ⟨Scraper.admitLoop_quality _ _, ?_, ?_, ?_, ?_,
    Scraper.sortByQualityDesc_sorted _, Scraper.sortByQualityDesc_perm _,
    Scraper.admitLoop_sublist _ _⟩
  · intro c
    have h := Scraper.admitLoop_total_cap
      (Scraper.sortByQualityDesc (Scraper.deduplicateResources allResources))
      [] c (by simp [Scraper.totalFor])
    simpa [Scraper.totalFor] using h
  · intro c
    have h := Scraper.admitLoop_video_cap
      (Scraper.sortByQualityDesc (Scraper.deduplicateResources allResources))
      [] c (by simp [Scraper.countFor])
    simpa [Scraper.countFor] using h
  · intro c
    have h := Scraper.admitLoop_arttut_cap
      (Scraper.sortByQualityDesc (Scraper.deduplicateResources allResources))
      [] c (by simp [Scraper.countFor])
    simpa [Scraper.countFor] using h
  · exact List.Pairwise.sublist (Scraper.admitLoop_sublist _ _)
      (Scraper.sortByQualityDesc_sorted _)

/-- C4 witness: a high-quality video survives the filter; the per-concept
count bound holds at a concrete concept. -/
theorem persistedBatch_invariants_witness :
    (0.4 : ℚ) ≤ (Fixtures.res "limits" "video" "u1" 0.9).qualityScore ∧
    (Scraper.persistedBatch [Fixtures.res "limits" "video" "u1" 0.9]).countP
      (fun r => r.conceptID = "limits") ≤ 6 :=
  ⟨(persistedBatch_invariants [Fixtures.res "limits" "video" "u1" 0.9]).1
      (Fixtures.res "limits" "video" "u1" 0.9)
      (by simp [Scraper.persistedBatch, Scraper.filterQualityResources,
            Scraper.deduplicateResources, Scraper.dedupGo,
            Scraper.sortByQualityDesc, Scraper.admitLoop, Scraper.totalFor,
            Scraper.countFor, Fixtures.res]
          norm_num),
   (persistedBatch_invariants [Fixtures.res "limits" "video" "u1" 0.9]).2.1
      "limits"⟩

/-- C5: merged candidates are deduplicated keeping exactly the first
occurrence of each URL in input order; persistence is an upsert keyed on
URL, so a store with pairwise-distinct URLs keeps them distinct across any
bulk write, an already-stored URL is updated in place (same length, same
URL sequence), and a new URL is appended. -/
theorem dedupAndUpsert_urlUnique (rs store : List EducationalResource)
    (b : EducationalResource) :
    Scraper.deduplicateResources rs = keepFirstBy (fun r => r.url) rs ∧
    (Scraper.deduplicateResources rs).Pairwise (fun x y => x.url ≠ y.url) ∧
    (store.Pairwise (fun x y => x.url ≠ y.url) →
      (Scraper.storeResources store rs).Pairwise (fun x y => x.url ≠ y.url)) ∧
    ((∃ d ∈ store, d.url = b.url) →
      (Scraper.upsertOne store b).length = store.length ∧
        (Scraper.upsertOne store b).map (fun d => d.url) =
          store.map (fun d => d.url)) ∧
    ((∀ d ∈ store, d.url ≠ b.url) →
      Scraper.upsertOne store b = store ++ [b]) := by
  refine ⟨deduplicateResources_eq_keepFirstBy rs, ?_,
    storeResources_pairwise rs store, upsertOne_existing store b,
    upsertOne_fresh store b⟩
  rw [deduplicateResources_eq_keepFirstBy]
  exact keepFirstBy_pairwise _ rs

/-- C5 witness: re-storing an already-stored URL keeps the store free of
duplicate URLs and updates in place. -/
theorem dedupAndUpsert_urlUnique_witness :
    (Scraper.storeResources [Fixtures.res "limits" "video" "u1" 0.5]
        [Fixtures.res "limits" "video" "u1" 0.9]).Pairwise
      (fun x y => x.url ≠ y.url) ∧
    (Scraper.upsertOne [Fixtures.res "limits" "video" "u1" 0.5]
        (Fixtures.res "limits" "article" "u1" 0.7)).length = 1 ∧
      (Scraper.upsertOne [Fixtures.res "limits" "video" "u1" 0.5]
          (Fixtures.res "limits" "article" "u1" 0.7)).map (fun d => d.url) =
        [Fixtures.res "limits" "video" "u1" 0.5].map (fun d => d.url) :=
  ⟨(dedupAndUpsert_urlUnique [Fixtures.res "limits" "video" "u1" 0.9]
      [Fixtures.res "limits" "video" "u1" 0.5]
      (Fixtures.res "limits" "article" "u1" 0.7)).2.2.1 (by simp),
   (dedupAndUpsert_urlUnique [Fixtures.res "limits" "video" "u1" 0.9]
      [Fixtures.res "limits" "video" "u1" 0.5]
      (Fixtures.res "limits" "article" "u1" 0.7)).2.2.2.1
      ⟨Fixtures.res "limits" "video" "u1" 0.5, by simp, rfl⟩⟩

/-- C8: `GetResourcesForConcepts` returns resources of the requested
concepts drawn from the store, sorted by quality score descending, with at
most `limit` elements. -/
theorem getResourcesForConcepts_sortedTruncated
    (store : List EducationalResource) (conceptNames : List String)
    (limit : Nat) :
    (Services.GetResourcesForConcepts store conceptNames limit).Sorted
      (fun a b => b.qualityScore ≤ a.qualityScore) ∧
    (Services.GetResourcesForConcepts store conceptNames limit).length ≤
      limit ∧
    (∀ x ∈ Services.GetResourcesForConcepts store conceptNames limit,
      x ∈ store ∧
        x.conceptID ∈ conceptNames.map Services.generateConceptID) := by
  simp only [Services.GetResourcesForConcepts]
  refine ⟨?_, ?_, ?_⟩
  · split
    · exact List.Pairwise.sublist (List.take_sublist _ _)
        (Scraper.sortByQualityDesc_sorted _)
    · exact Scraper.sortByQualityDesc_sorted _
  · split
    · exact List.length_take_le limit _
    · next hlen => omega
  · intro x hx
    have hx1 : x ∈ Scraper.sortByQualityDesc
        ((conceptNames.map (fun name => Scraper.GetResourcesForConcept store
          (Services.generateConceptID name) limit)).flatten) := by
      split at hx
      · exact (List.take_sublist _ _).subset hx
      · exact hx
    have hx2 := (Scraper.sortByQualityDesc_perm _).subset hx1
    rw [List.mem_flatten] at hx2
    obtain ⟨l, hl, hxl⟩ := hx2
    rw [List.mem_map] at hl
    obtain ⟨name, hname, rfl⟩ := hl
    unfold Scraper.GetResourcesForConcept at hxl
    have hx3 := (Scraper.sortByQualityDesc_perm _).subset
      ((List.take_sublist _ _).subset hxl)
    rw [List.mem_filter] at hx3
    refine ⟨hx3.1, ?_⟩
    rw [List.mem_map]
    refine ⟨name, hname, ?_⟩
    have h := hx3.2
    simp only [decide_eq_true_eq] at h
    exact h.symm

/-- C6 counterexample: in the graph alpha -> beta -> target, beta has the
strictly shorter prerequisite path to the target (length 1 versus alpha's
2), yet the returned list places alpha before beta: the final ORDER BY
sorts by role and name only, so the claimed within-role ordering by
ascending path length fails at this input. -/
theorem findPrerequisitePath_pathLength_cex :
    Neo4j.FindPrerequisitePath Fixtures.cexGraph
        (Fixtures.stdLookup Fixtures.cexGraph) ["target"] =
      .ok [{ id := "a", name := "alpha", description := "", type := "prerequisite" },
           { id := "b", name := "beta", description := "", type := "prerequisite" },
           { id := "t", name := "target", description := "", type := "target" }] ∧
    Neo4j.reachesIn Fixtures.cexGraph.edges 1 "b" "t" = true ∧
    Neo4j.reachesIn Fixtures.cexGraph.edges 1 "a" "t" = false ∧
    Neo4j.reachesIn Fixtures.cexGraph.edges 2 "a" "t" = true :=
  ⟨rfl, rfl, rfl, rfl⟩

/-- C6 amended: every returned list places all prerequisite-role concepts
before all target-role concepts, and within each role orders them by
ascending name; path length does not influence the returned order. -/
theorem findPrerequisitePath_roleName_order (g : Neo4j.Graph)
    (lookup : String → Except String (Option String)) (names : List String)
    (res : List Concept)
    (h : Neo4j.FindPrerequisitePath g lookup names = .ok res) :
    res.Pairwise (fun x y =>
      (x.type = "prerequisite" ∧ y.type = "target") ∨
      (x.type = y.type ∧ strLE x.name y.name = true)) := by
  rw [Neo4j.FindPrerequisitePath] at h
  split at h
  · cases h
    exact List.Pairwise.nil
  · split at h
    · cases h
      exact List.Pairwise.nil
    · cases h
      have hsorted := runPrereqQuery_sorted g
        (Neo4j.resolveTargetIDs lookup names)
      have htype := runPrereqQuery_type_mem g
        (Neo4j.resolveTargetIDs lookup names)
      refine List.Pairwise.imp_of_mem ?_ hsorted
      intro x y hx hy hxy
      have hxt := htype x hx
      have hyt := htype y hy
      simp only [Neo4j.rowLE, Bool.or_eq_true, Bool.and_eq_true,
        decide_eq_true_eq] at hxy
      by_cases hxm : x.id ∈ Neo4j.resolveTargetIDs lookup names <;>
        by_cases hym : y.id ∈ Neo4j.resolveTargetIDs lookup names
      · rw [if_pos hxm] at hxt
        rw [if_pos hym] at hyt
        rcases hxy with hlt | ⟨_, hs⟩
        · simp [hxm, hym] at hlt
        · exact Or.inr ⟨hxt.trans hyt.symm, hs⟩
      · rcases hxy with hlt | ⟨heq, _⟩
        · simp [hxm, hym] at hlt
        · simp [hxm, hym] at heq
      · rw [if_neg hxm] at hxt
        rw [if_pos hym] at hyt
        exact Or.inl ⟨hxt, hyt⟩
      · rw [if_neg hxm] at hxt
        rw [if_neg hym] at hyt
        rcases hxy with hlt | ⟨_, hs⟩
        · simp [hxm, hym] at hlt
        · exact Or.inr ⟨hxt.trans hyt.symm, hs⟩

/-- C6 amended witness: the ordering holds on the concrete three-node
graph. -/
theorem findPrerequisitePath_roleName_order_witness :
    ([{ id := "a", name := "alpha", description := "", type := "prerequisite" },
      { id := "b", name := "beta", description := "", type := "prerequisite" },
      { id := "t", name := "target", description := "", type := "target" }] :
        List Concept).Pairwise (fun x y =>
      (x.type = "prerequisite" ∧ y.type = "target") ∨
      (x.type = y.type ∧ strLE x.name y.name = true)) :=
  findPrerequisitePath_roleName_order Fixtures.cexGraph
    (Fixtures.stdLookup Fixtures.cexGraph) ["target"] _ rfl

/-- C8 witness: a two-concept store, truncated to one result. -/
theorem getResourcesForConcepts_sortedTruncated_witness :
    (Services.GetResourcesForConcepts
        [Fixtures.res "limits" "video" "u1" 0.5]
        ["Limits"] 1).length ≤ 1 ∧
    ((Fixtures.res "limits" "video" "u1" 0.5) ∈
        Services.GetResourcesForConcepts
          [Fixtures.res "limits" "video" "u1" 0.5] ["Limits"] 1 →
      (Fixtures.res "limits" "video" "u1" 0.5) ∈
          [Fixtures.res "limits" "video" "u1" 0.5] ∧
        (Fixtures.res "limits" "video" "u1" 0.5).conceptID ∈
          (["Limits"].map Services.generateConceptID)) :=
  ⟨(getResourcesForConcepts_sortedTruncated
      [Fixtures.res "limits" "video" "u1" 0.5] ["Limits"] 1).2.1,
   (getResourcesForConcepts_sortedTruncated
      [Fixtures.res "limits" "video" "u1" 0.5] ["Limits"] 1).2.2
      (Fixtures.res "limits" "video" "u1" 0.5)⟩

end Mathprereq
